import Mathlib

/-!
# Verification of the claude-code-tray-indicator core

Shallow embedding of the two source files:

* `src/hooks/tray-status-hook.py` — the producer hook: reads one event from
  stdin and commits a per-session record into the shared JSON store
  (`update_status`, `STATE_MAP`, `TITLE_MAX_LEN`, `find_terminal_pid`).
* `src/scripts/claude-tray.py` — the consumer tray app: polls the store once
  per second, computes an aggregate status and menu labels, and mutates a
  Gtk menu in place (`aggregate_status`, `build_labels`, `ClaudeTray`).

The store is a JSON object (Python dict, insertion-ordered, unique keys);
it is embedded as an association list `List (String × SessionRecord)` with
dict-faithful get / set / pop operations.  I/O-dependent values
(`find_terminal_pid()`, `datetime.now().isoformat()`) become parameters of
the pure transform.  The file-system side of a commit is embedded as a
`FileContent` value (absent / unparseable / valid) and, for the locking
claims, as an explicit list of file actions plus a small-step interleaving
machine over lock-guarded critical sections.
-/

/-- One per-session record, exactly the dict written at
`tray-status-hook.py:116-124`.  Keys `tool_name`, `cwd`, `terminal_pid`
may hold JSON `null` (Python `None`), hence `Option`. -/
structure SessionRecord where
  status : String
  event : String
  title : String
  tool_name : Option String
  cwd : Option String
  terminal_pid : Option Int
  timestamp : String
deriving DecidableEq, Repr

/-- The shared store: JSON object mapping session id to record, embedded as
an insertion-ordered association list (Python dict semantics). -/
abbrev Store := List (String × SessionRecord)

/-- Python `sessions.get(session_id)` / `sessions[session_id]` read:
first (and for a dict, only) binding of the key. -/
def storeGet : Store → String → Option SessionRecord
  | [], _ => none
  | (k', v) :: t, k => if k' = k then some v else storeGet t k

/-- Python `sessions[session_id] = rec`: replace the existing binding in
place (position preserved), or append a new binding at the end. -/
def storeSet : Store → String → SessionRecord → Store
  | [], k, v => [(k, v)]
  | (k', v') :: t, k, v => if k' = k then (k, v) :: t else (k', v') :: storeSet t k v

/-- Python `sessions.pop(session_id, None)`: drop the binding of the key if
present, keeping every other binding in order. -/
def storePop : Store → String → Store
  | [], _ => []
  | (k', v) :: t, k => if k' = k then t else (k', v) :: storePop t k

/-- The fields of the incoming hook event that `update_status` reads from
`data`: `data.get("prompt", "")`, `data.get("tool_name")`, `data.get("cwd")`. -/
structure EventData where
  prompt : String
  tool_name : Option String
  cwd : Option String
deriving DecidableEq, Repr

/-- Table `STATE_MAP` at `tray-status-hook.py:15-21`. -/
def STATE_MAP (e : String) : Option String :=
  if e = "UserPromptSubmit" then some "working"
  else if e = "PreToolUse" then some "working"
  else if e = "Stop" then some "waiting"
  else if e = "SessionStart" then some "active"
  else if e = "SessionEnd" then some "idle"
  else none

/-- Constant `TITLE_MAX_LEN = 20` at `tray-status-hook.py:23`. -/
def TITLE_MAX_LEN : Nat := 20

/-- The "Capture first user prompt as session title" block
(`tray-status-hook.py:103-109`): `title = existing.get("title", "")`, and
only when that is empty and the event is `UserPromptSubmit`,
`title = prompt[:TITLE_MAX_LEN]` with `"..."` appended when
`len(prompt) > TITLE_MAX_LEN`. -/
def mergedTitle (data : EventData) (event : String)
    (existing : Option SessionRecord) : String :=
  let existingTitle := (existing.map (fun r => r.title)).getD ""
  if existingTitle = "" ∧ event = "UserPromptSubmit" then
    let t := data.prompt.take TITLE_MAX_LEN
    if data.prompt.length > TITLE_MAX_LEN then t ++ "..." else t
  else existingTitle

/-- The "Find terminal PID on first event" block
(`tray-status-hook.py:111-114`): `terminal_pid =
existing.get("terminal_pid")`, recomputed by `find_terminal_pid()` (here
the parameter `tpid_found`) only when it is `None` and the event is
`SessionStart`. -/
def mergedPid (event : String) (tpid_found : Option Int)
    (existing : Option SessionRecord) : Option Int :=
  let tpid0 := (existing.map (fun r => r.terminal_pid)).getD none
  if tpid0 = none ∧ event = "SessionStart" then tpid_found else tpid0

/-- The pure store transform inside `update_status`
(`tray-status-hook.py:85-124`): the body between `json.load` and
`json.dump`, with the two I/O reads as parameters — `tpid_found` is the
value `find_terminal_pid()` would return, `now` the value of
`datetime.now().isoformat()`. -/
def update_sessions (data : EventData) (event : String) (session_id : String)
    (tpid_found : Option Int) (now : String) (sessions : Store) : Store :=
  if event = "SessionEnd" then
    storePop sessions session_id
  else
    let existing := storeGet sessions session_id
    storeSet sessions session_id
      { status := (STATE_MAP event).getD "unknown"
        event := event
        title := mergedTitle data event existing
        tool_name := data.tool_name
        cwd := data.cwd
        terminal_pid := mergedPid event tpid_found existing
        timestamp := now }

/-! ## File backing and the commit / read paths (`§4.1`-level embedding)

The producer opens the store with `O_RDWR | O_CREAT`, locks it, parses it
(`json.load`, any parse failure gives `{}`), applies the transform and
rewrites the whole file (`tray-status-hook.py:89-130`).  The consumer
opens and parses it without a lock, mapping `FileNotFoundError` and
`JSONDecodeError` to `{}` (`claude-tray.py:127-131`).  The backing file is
embedded by its parse outcome. -/

/-- State of the backing file `~/.claude-tray/sessions.json` as seen by a
parser: missing, present but not parseable as JSON, or a parsed store. -/
inductive FileContent where
  | absent
  | unparseable (raw : String)
  | valid (s : Store)
deriving DecidableEq, Repr

/-- Producer-side load (`tray-status-hook.py:92-96`): `O_CREAT` makes an
absent file an empty one whose parse fails, and
`except (json.JSONDecodeError, ValueError): sessions = {}` maps any parse
failure to the empty store. -/
def producerLoad : FileContent → Store
  | .valid s => s
  | _ => []

/-- Consumer-side read (`claude-tray.py:127-131`):
`except (FileNotFoundError, json.JSONDecodeError): sessions = {}`. -/
def consumerRead : FileContent → Store
  | .valid s => s
  | _ => []

/-- One whole producer commit on the backing file
(`tray-status-hook.py:89-128`): load under the lock, transform, truncate
and rewrite the whole file with the result. -/
def commitEvent (data : EventData) (event : String) (session_id : String)
    (tpid_found : Option Int) (now : String) (fc : FileContent) : FileContent :=
  .valid (update_sessions data event session_id tpid_found now (producerLoad fc))

/-- The primitive file operations performed by the two store paths, in
program order. -/
inductive FileAction where
  | openRW
  | openRead
  | flockEx
  | readAll
  | seekStart
  | truncate
  | writeAll
  | close
deriving DecidableEq, Repr

/-- File operations of one producer commit, in the order
`tray-status-hook.py:90-128` performs them: `os.open(..., O_RDWR|O_CREAT)`,
`fcntl.flock(fd, LOCK_EX)`, `json.load(f)`, `f.seek(0)`, `f.truncate()`,
`json.dump(..., f)`, and the `with` block closing the descriptor (which
releases the advisory lock). -/
def producerCommitActions : List FileAction :=
  [.openRW, .flockEx, .readAll, .seekStart, .truncate, .writeAll, .close]

/-- File operations of one consumer poll read, in the order
`claude-tray.py:128-129` performs them: `open(STATUS_FILE)`,
`json.load(f)`, close.  No `flock` call appears on this path. -/
def consumerReadActions : List FileAction :=
  [.openRead, .readAll, .close]

/-! ## Consumer view computation (`claude-tray.py`) -/

/-- Table `STATUS_PRIORITY` at `claude-tray.py:27`, read via
`STATUS_PRIORITY.get(s, 99)`. -/
def STATUS_PRIORITY (s : String) : Nat :=
  if s = "working" then 0
  else if s = "waiting" then 1
  else if s = "active" then 2
  else if s = "idle" then 3
  else 99

/-- Python `min(xs, key=...)` over a non-empty sequence: keeps the first
element whose key is minimal (a later element replaces the current best
only when its key is strictly smaller). -/
def minByPriority : String → List String → String
  | best, [] => best
  | best, x :: t =>
      minByPriority (if STATUS_PRIORITY x < STATUS_PRIORITY best then x else best) t

/-- Function `aggregate_status` at `claude-tray.py:30-37`: `"idle"` for an empty
store, else the first status of minimal priority.  Records written by the
hook always carry a `status` key, so `s.get("status", "idle")` is the
record's status field. -/
def aggregate_status (sessions : Store) : String :=
  match sessions.map (fun p => p.2.status) with
  | [] => "idle"
  | x :: t => minByPriority x t

/-- Function `short_id` at `claude-tray.py:40-41`. -/
def short_id (session_id : String) : String :=
  if session_id.length > 8 then session_id.take 8 else session_id

/-- Model of `os.path.basename` for POSIX paths: the part after the last slash
(empty for a path ending in a slash). -/
def basename (p : String) : String :=
  ⟨(p.data.reverse.takeWhile (fun c => c ≠ '/')).reverse⟩

/-- The label of one session row (`claude-tray.py:52-62`): `tool` and
`dirname` are appended only when truthy (non-`None`, non-empty). -/
def rowLabel (sid : String) (info : SessionRecord) : String :=
  let cwd := info.cwd.getD ""
  let dirname := if cwd = "" then "" else basename cwd
  let label := "[" ++ short_id sid ++ "] " ++ info.status
  let label :=
    match info.tool_name with
    | some t => if t = "" then label else label ++ " (" ++ t ++ ")"
    | none => label
  if dirname = "" then label else label ++ "  — " ++ dirname

/-- Function `build_labels` at `claude-tray.py:44-63`. -/
def build_labels (sessions : Store) : List String :=
  if sessions = [] then ["No active sessions"]
  else
    (toString sessions.length ++ " session(s)") ::
      sessions.map (fun p => rowLabel p.1 p.2)

/-! ## Tray menu synchronisation (`ClaudeTray`, `claude-tray.py:66-147`)

`self._session_items` is embedded by the list of label texts its
`Gtk.MenuItem`s currently display; each Gtk call that repaints or
restructures the menu or the indicator is recorded as a `RenderCall`. -/

/-- One render-effecting Gtk call made by the tray. -/
inductive RenderCall where
  | setLabel (idx : Nat) (text : String)
  | insertItem (idx : Nat) (text : String)
  | removeItem (text : String)
  | setIcon (icon : String) (desc : String)
  | setTitle (title : String)
deriving DecidableEq, Repr

/-- Whether a render call touches a session row (rather than the
indicator icon or title). -/
def RenderCall.isRowCall : RenderCall → Bool
  | .setLabel _ _ => true
  | .insertItem _ _ => true
  | .removeItem _ => true
  | _ => false

/-- The `for i, text in enumerate(labels)` loop of `_sync_items`
(`claude-tray.py:110-118`): an existing item at index `i` gets
`set_label(text)`; past the end a fresh item is created, inserted and
appended to `self._session_items`. -/
def syncForward (items : List String) (labels : List String) (i : Nat) :
    List String × List RenderCall :=
  match labels with
  | [] => (items, [])
  | text :: rest =>
      if i < items.length then
        let r := syncForward (items.set i text) rest (i + 1)
        (r.1, .setLabel i text :: r.2)
      else
        let r := syncForward (items ++ [text]) rest (i + 1)
        (r.1, .insertItem i text :: r.2)

/-- The `while len(self._session_items) > len(labels)` loop of
`_sync_items` (`claude-tray.py:120-122`): pop the last item and remove it
from the menu. -/
def removeExtraAux : Nat → List String → List String × List RenderCall
  | 0, items => (items, [])
  | n + 1, items =>
      let r := removeExtraAux n items.dropLast
      (r.1, .removeItem ((items.getLast?).getD "") :: r.2)

/-- The while loop runs exactly `len(items) - len(labels)` times, popping
the last item each time. -/
def removeExtra (items : List String) (target : Nat) : List String × List RenderCall :=
  removeExtraAux (items.length - target) items

/-- Method `_sync_items` (`claude-tray.py:108-124`) on the item-label list:
returns the new item labels and the Gtk calls emitted. -/
def sync_items (items : List String) (labels : List String) :
    List String × List RenderCall :=
  let fwd := syncForward items labels 0
  let rem := removeExtra fwd.1 labels.length
  (rem.1, fwd.2 ++ rem.2)

/-- Lookup `ICONS.get(agg, "user-offline")` (`claude-tray.py:20-25`). -/
def ICONS (s : String) : String :=
  if s = "working" then "media-record"
  else if s = "waiting" then "dialog-question"
  else if s = "active" then "user-available"
  else if s = "idle" then "user-offline"
  else "user-offline"

/-- Mutable view state of `ClaudeTray`: `_last_agg`, `_last_labels`,
`_session_items` (as their label texts), `_menu_visible`,
`_pending_labels`. -/
structure TrayState where
  lastAgg : Option String
  lastLabels : List String
  items : List String
  menuVisible : Bool
  pendingLabels : Option (List String)
deriving DecidableEq, Repr

/-- One timer tick `ClaudeTray.update_status` (`claude-tray.py:126-147`),
given the parsed store it read: update the icon and title only when the
aggregate changed, then either defer the labels (menu open) or run
`_sync_items` (which also assigns `_last_labels`) when they differ from
the previous tick's. -/
def update_status_tick (st : TrayState) (sessions : Store) :
    TrayState × List RenderCall :=
  let agg := aggregate_status sessions
  let stIcon : TrayState × List RenderCall :=
    if st.lastAgg = some agg then (st, [])
    else
      ({ st with lastAgg := some agg },
       [.setIcon (ICONS agg) agg, .setTitle ("Claude Code: " ++ agg)])
  let labels := build_labels sessions
  if labels = stIcon.1.lastLabels then (stIcon.1, stIcon.2)
  else if stIcon.1.menuVisible then
    ({ stIcon.1 with pendingLabels := some labels }, stIcon.2)
  else
    let sr := sync_items stIcon.1.items labels
    ({ stIcon.1 with items := sr.1, lastLabels := labels }, stIcon.2 ++ sr.2)

/-! ## Spec-side staleness policy (for claim C1)

No staleness computation exists anywhere in the two source files; the
definitions below follow the specification's own words (§4.2) so the
claimed filtering behaviour can be stated and compared against the code's
consumer pipeline. -/

/-- Modelled from the spec: `StalenessPolicy.isAlive(record, now,
cutoffDuration)`, "a record is alive iff `now - record.updatedAt <
cutoffDuration`"; no such computation exists in the source. -/
def specIsAlive (now updatedAt cutoffDuration : Int) : Bool :=
  now - updatedAt < cutoffDuration

/-- Modelled from the spec: the read-time filtering "`records =
StalenessPolicy.filter(StatusStore.read())`" (§4.5), over a store paired
with a numeric `updatedAt` reading for each record; no such filtering
exists in the source. -/
def specFilterAlive (now cutoffDuration : Int) (ages : String → Int)
    (sessions : Store) : Store :=
  sessions.filter (fun p => specIsAlive now (ages p.1) cutoffDuration)

/-- Rewrite every record's `timestamp` field (used to show the consumer's
output never depends on it). -/
def mapTimestamps (f : String → String) (sessions : Store) : Store :=
  sessions.map (fun p => (p.1, { p.2 with timestamp := f p.2.timestamp }))

/-! ## Interleaved commits under the exclusive lock (for claim C2)

Each producer's `update_status` is the straight-line program
`flock(LOCK_EX); read; compute; write; close` — the read happens after
lock acquisition and the write before release
(`tray-status-hook.py:90-128`).  A producer is embedded as a two-step
process: an `acquire` step that takes the free lock and reads the store,
and a `commit` step that writes its transform of the value it read and
releases the lock.  Any interleaving of `n` such producers is a path of
the `Step` relation. -/

/-- Where one producer stands: not yet locked, holding the lock with the
store value `v` it read under the lock, or finished. -/
inductive PState (σ : Type) where
  | ready
  | inCS (v : σ)
  | done

/-- Whether a producer has finished its commit. -/
def PState.isDone {σ : Type} : PState σ → Bool
  | .done => true
  | _ => false

/-- Global configuration: current store contents, which producer (if any)
holds the exclusive `flock`, and each producer's state. -/
structure Conf (σ : Type) (n : Nat) where
  store : σ
  lock : Option (Fin n)
  ps : Fin n → PState σ

/-- Interleaving semantics of `n` producers committing transforms `fs`:
`acquire` models `fcntl.flock(fd, LOCK_EX)` followed by `json.load` (the
read happens under the lock, so it reads the current store), `commit`
models `json.dump` of the transformed value followed by the lock release
at `with`-block exit. -/
inductive Step {σ : Type} {n : Nat} (fs : Fin n → σ → σ) : Conf σ n → Conf σ n → Prop where
  | acquire (c : Conf σ n) (i : Fin n)
      (h1 : c.ps i = .ready) (h2 : c.lock = none) :
      Step fs c ⟨c.store, some i, Function.update c.ps i (.inCS c.store)⟩
  | commit (c : Conf σ n) (i : Fin n) (v : σ)
      (h1 : c.ps i = .inCS v) (h2 : c.lock = some i) :
      Step fs c ⟨fs i v, none, Function.update c.ps i .done⟩

/-- Initial configuration: store contents `s0`, lock free, every producer
about to run. -/
def initConf (σ : Type) (n : Nat) (s0 : σ) : Conf σ n :=
  ⟨s0, none, fun _ => .ready⟩

/-- Producers whose commit has not yet been written. -/
def pending {σ : Type} {n : Nat} (c : Conf σ n) : List (Fin n) :=
  (List.finRange n).filter (fun i => !(c.ps i).isDone)

/-! ## Reachable store states (for claim C10) -/

/-- Store states reachable by hook commits from the empty store (which is
also what an absent or unparseable backing file loads as). -/
inductive ReachableStore : Store → Prop where
  | empty : ReachableStore []
  | step (data : EventData) (event session_id : String) (tpid_found : Option Int)
      (now : String) (s : Store) :
      ReachableStore s →
      ReachableStore (update_sessions data event session_id tpid_found now s)

/-! ## Association-list lemmas (Python-dict behaviour of the store) -/

theorem storeGet_storeSet_self (s : Store) (k : String) (v : SessionRecord) :
    storeGet (storeSet s k v) k = some v := by
  induction s with
  | nil => simp [storeSet, storeGet]
  | cons hd t ih =>
      obtain ⟨k', v'⟩ := hd
      by_cases h : k' = k
      · simp [storeSet, storeGet, h]
      · simp [storeSet, storeGet, h, ih]

theorem storePop_of_get_none (s : Store) (k : String)
    (h : storeGet s k = none) : storePop s k = s := by
  induction s with
  | nil => simp [storePop]
  | cons hd t ih =>
      obtain ⟨k', v'⟩ := hd
      by_cases hk : k' = k
      · simp [storeGet, hk] at h
      · simp [storeGet, hk] at h
        simp [storePop, hk, ih h]

theorem storeGet_eq_none_of_not_mem (s : Store) (k : String)
    (h : k ∉ s.map Prod.fst) : storeGet s k = none := by
  induction s with
  | nil => simp [storeGet]
  | cons hd t ih =>
      obtain ⟨k', v'⟩ := hd
      simp only [List.map_cons, List.mem_cons] at h
      push_neg at h
      simp [storeGet, Ne.symm h.1, ih h.2]

theorem storeGet_storePop_of_nodup (s : Store) (k : String)
    (h : (s.map Prod.fst).Nodup) : storeGet (storePop s k) k = none := by
  induction s with
  | nil => simp [storePop, storeGet]
  | cons hd t ih =>
      obtain ⟨k', v'⟩ := hd
      simp only [List.map_cons, List.nodup_cons] at h
      by_cases hk : k' = k
      · subst hk
        simp only [storePop, if_pos rfl]
        exact storeGet_eq_none_of_not_mem t k' h.1
      · simp [storePop, hk, storeGet, ih h.2]

theorem storeGet_mem (s : Store) (k : String) (v : SessionRecord)
    (h : storeGet s k = some v) : (k, v) ∈ s := by
  induction s with
  | nil => simp [storeGet] at h
  | cons hd t ih =>
      obtain ⟨k', v'⟩ := hd
      by_cases hk : k' = k
      · subst hk
        simp [storeGet] at h
        simp [h]
      · simp [storeGet, hk] at h
        exact List.mem_cons_of_mem _ (ih h)

theorem mem_storePop (s : Store) (k : String) (p : String × SessionRecord)
    (h : p ∈ storePop s k) : p ∈ s := by
  induction s with
  | nil => simp [storePop] at h
  | cons hd t ih =>
      obtain ⟨k', v'⟩ := hd
      by_cases hk : k' = k
      · simp only [storePop, if_pos hk] at h
        exact List.mem_cons_of_mem _ h
      · simp only [storePop, if_neg hk, List.mem_cons] at h
        rcases h with h | h
        · simp [h]
        · exact List.mem_cons_of_mem _ (ih h)

theorem mem_storeSet (s : Store) (k : String) (v : SessionRecord)
    (p : String × SessionRecord) (h : p ∈ storeSet s k v) :
    p ∈ s ∨ p = (k, v) := by
  induction s with
  | nil => exact Or.inr (by simpa [storeSet] using h)
  | cons hd t ih =>
      obtain ⟨k', v'⟩ := hd
      by_cases hk : k' = k
      · simp only [storeSet, if_pos hk, List.mem_cons] at h
        rcases h with h | h
        · exact Or.inr h
        · exact Or.inl (List.mem_cons_of_mem _ h)
      · simp only [storeSet, if_neg hk, List.mem_cons] at h
        rcases h with h | h
        · exact Or.inl (by simp [h])
        · rcases ih h with h' | h'
          · exact Or.inl (List.mem_cons_of_mem _ h')
          · exact Or.inr h'

/-! ## Unfolding lemmas for `update_sessions` -/

theorem update_sessions_terminal (data : EventData) (session_id : String)
    (tpid_found : Option Int) (now : String) (sessions : Store) :
    update_sessions data "SessionEnd" session_id tpid_found now sessions =
      storePop sessions session_id := rfl

theorem update_sessions_nonterminal (data : EventData) (event session_id : String)
    (tpid_found : Option Int) (now : String) (sessions : Store)
    (he : event ≠ "SessionEnd") :
    update_sessions data event session_id tpid_found now sessions =
      storeSet sessions session_id
        { status := (STATE_MAP event).getD "unknown"
          event := event
          title := mergedTitle data event (storeGet sessions session_id)
          tool_name := data.tool_name
          cwd := data.cwd
          terminal_pid := mergedPid event tpid_found (storeGet sessions session_id)
          timestamp := now } := by
  simp only [update_sessions, if_neg he]

theorem string_take_of_length_le (s : String) (n : Nat) (h : s.length ≤ n) :
    s.take n = s := by
  rw [String.take_eq]
  cases s with
  | mk data => exact congrArg String.mk (List.take_of_length_le h)

/-- C3: for every session whose stored record has a non-empty title,
processing any further non-terminal event for that session id leaves the
title field unchanged, regardless of the event's kind or payload content
(`tray-status-hook.py:101-124`). -/
theorem title_immutable_once_nonempty (data : EventData)
    (event session_id : String) (tpid_found : Option Int) (now : String)
    (sessions : Store) (r : SessionRecord)
    (hget : storeGet sessions session_id = some r) (ht : r.title ≠ "")
    (he : event ≠ "SessionEnd") :
    ∃ r', storeGet (update_sessions data event session_id tpid_found now sessions)
            session_id = some r'
      ∧ r'.title = r.title := by
  rw [update_sessions_nonterminal data event session_id tpid_found now sessions he]
  refine ⟨_, storeGet_storeSet_self _ _ _, ?_⟩
  simp [mergedTitle, hget, ht]

/-- Closed instance of `title_immutable_once_nonempty`: a `Stop` event
cannot change an already captured title. -/
theorem title_immutable_once_nonempty_witness :
    ∃ r', storeGet
        (update_sessions ⟨"new prompt", none, none⟩ "Stop" "abc" none "t1"
          [("abc", ⟨"working", "UserPromptSubmit", "hello", none, none, none, "t0"⟩)])
        "abc" = some r'
      ∧ r'.title = "hello" :=
  title_immutable_once_nonempty ⟨"new prompt", none, none⟩ "Stop" "abc" none "t1"
    [("abc", ⟨"working", "UserPromptSubmit", "hello", none, none, none, "t0"⟩)]
    ⟨"working", "UserPromptSubmit", "hello", none, none, none, "t0"⟩
    (by decide) (by decide) (by decide)

/-- C4: for every session whose stored record has `terminal_pid` set,
processing any further non-terminal event leaves it unchanged; moreover an
event that is neither `SessionStart` nor `SessionEnd` never touches the
field at all, even when the stored value is absent
(`tray-status-hook.py:111-124`). -/
theorem focus_handle_write_once (data : EventData)
    (event session_id : String) (tpid_found : Option Int) (now : String)
    (sessions : Store) (r : SessionRecord)
    (hget : storeGet sessions session_id = some r)
    (he : event ≠ "SessionEnd") :
    (∀ p : Int, r.terminal_pid = some p →
      ∃ r', storeGet (update_sessions data event session_id tpid_found now sessions)
              session_id = some r'
        ∧ r'.terminal_pid = some p)
    ∧ (event ≠ "SessionStart" →
      ∃ r', storeGet (update_sessions data event session_id tpid_found now sessions)
              session_id = some r'
        ∧ r'.terminal_pid = r.terminal_pid) := by
  rw [update_sessions_nonterminal data event session_id tpid_found now sessions he]
  constructor
  · intro p hp
    refine ⟨_, storeGet_storeSet_self _ _ _, ?_⟩
    simp [mergedPid, hget, hp]
  · intro hs
    refine ⟨_, storeGet_storeSet_self _ _ _, ?_⟩
    simp [mergedPid, hget, hs]

/-- Closed instance of `focus_handle_write_once`: a later `SessionStart`
cannot overwrite a captured terminal pid, and a `PreToolUse` event leaves
the field alone. -/
theorem focus_handle_write_once_witness :
    (∀ p : Int,
        (⟨"active", "SessionStart", "", none, none, some 42, "t0"⟩ : SessionRecord).terminal_pid = some p →
        ∃ r', storeGet
            (update_sessions ⟨"", none, none⟩ "SessionStart" "abc" (some 99) "t1"
              [("abc", ⟨"active", "SessionStart", "", none, none, some 42, "t0"⟩)])
            "abc" = some r'
          ∧ r'.terminal_pid = some p)
    ∧ ("SessionStart" ≠ "SessionStart" →
        ∃ r', storeGet
            (update_sessions ⟨"", none, none⟩ "SessionStart" "abc" (some 99) "t1"
              [("abc", ⟨"active", "SessionStart", "", none, none, some 42, "t0"⟩)])
            "abc" = some r'
          ∧ r'.terminal_pid =
              (⟨"active", "SessionStart", "", none, none, some 42, "t0"⟩ : SessionRecord).terminal_pid) :=
  focus_handle_write_once ⟨"", none, none⟩ "SessionStart" "abc" (some 99) "t1"
    [("abc", ⟨"active", "SessionStart", "", none, none, some 42, "t0"⟩)]
    ⟨"active", "SessionStart", "", none, none, some 42, "t0"⟩
    (by decide) (by decide)

/-- C5: on the first qualifying prompt event (no stored title yet), a
prompt longer than `TITLE_MAX_LEN` is stored as its first `TITLE_MAX_LEN`
characters followed by `"..."`, and a prompt of length at most
`TITLE_MAX_LEN` is stored verbatim with no marker
(`tray-status-hook.py:103-109`). -/
theorem first_prompt_title_truncation (data : EventData)
    (event session_id : String) (tpid_found : Option Int) (now : String)
    (sessions : Store)
    (hfirst : ((storeGet sessions session_id).map (fun r => r.title)).getD "" = "")
    (hev : event = "UserPromptSubmit") :
    ∃ r', storeGet (update_sessions data event session_id tpid_found now sessions)
            session_id = some r'
      ∧ (TITLE_MAX_LEN < data.prompt.length →
          r'.title = data.prompt.take TITLE_MAX_LEN ++ "...")
      ∧ (data.prompt.length ≤ TITLE_MAX_LEN → r'.title = data.prompt) := by
  subst hev
  rw [update_sessions_nonterminal data _ session_id tpid_found now sessions (by decide)]
  refine ⟨_, storeGet_storeSet_self _ _ _, ?_, ?_⟩
  · intro hlong
    simp [mergedTitle, hfirst, hlong]
  · intro hshort
    have hng : ¬ data.prompt.length > TITLE_MAX_LEN := by omega
    simp [mergedTitle, hfirst, hng, string_take_of_length_le _ _ hshort]

/-- Closed instance of `first_prompt_title_truncation`: a 25-character
prompt is stored as its first 20 characters plus `"..."`, and an
11-character prompt verbatim. -/
theorem first_prompt_title_truncation_witness :
    (∃ r', storeGet
        (update_sessions ⟨"abcdefghijklmnopqrstuvwxy", none, none⟩
          "UserPromptSubmit" "s1" none "t0" []) "s1" = some r'
      ∧ (TITLE_MAX_LEN < ("abcdefghijklmnopqrstuvwxy" : String).length →
          r'.title = ("abcdefghijklmnopqrstuvwxy" : String).take TITLE_MAX_LEN ++ "...")
      ∧ (("abcdefghijklmnopqrstuvwxy" : String).length ≤ TITLE_MAX_LEN →
          r'.title = "abcdefghijklmnopqrstuvwxy"))
    ∧ (∃ r', storeGet
        (update_sessions ⟨"hello world", none, none⟩
          "UserPromptSubmit" "s2" none "t0" []) "s2" = some r'
      ∧ (TITLE_MAX_LEN < ("hello world" : String).length →
          r'.title = ("hello world" : String).take TITLE_MAX_LEN ++ "...")
      ∧ (("hello world" : String).length ≤ TITLE_MAX_LEN →
          r'.title = "hello world")) :=
  ⟨first_prompt_title_truncation ⟨"abcdefghijklmnopqrstuvwxy", none, none⟩
      "UserPromptSubmit" "s1" none "t0" [] (by decide) rfl,
   first_prompt_title_truncation ⟨"hello world", none, none⟩
      "UserPromptSubmit" "s2" none "t0" [] (by decide) rfl⟩

/-- C6: committing the same terminal (`SessionEnd`) event twice for a
session id yields the same store as committing it once, and removing an
absent key leaves the whole store unchanged
(`tray-status-hook.py:98-99`). -/
theorem terminal_commit_idempotent (data : EventData) (session_id : String)
    (tpid_found : Option Int) (now : String) (s : Store)
    (hnd : (s.map Prod.fst).Nodup) :
    update_sessions data "SessionEnd" session_id tpid_found now
        (update_sessions data "SessionEnd" session_id tpid_found now s) =
      update_sessions data "SessionEnd" session_id tpid_found now s
    ∧ (storeGet s session_id = none →
        update_sessions data "SessionEnd" session_id tpid_found now s = s) := by
  rw [update_sessions_terminal, update_sessions_terminal]
  constructor
  · exact storePop_of_get_none _ _ (storeGet_storePop_of_nodup s session_id hnd)
  · exact storePop_of_get_none s session_id

/-- Closed instance of `terminal_commit_idempotent` on a two-session
store. -/
theorem terminal_commit_idempotent_witness :
    update_sessions ⟨"", none, none⟩ "SessionEnd" "a" none "t1"
        (update_sessions ⟨"", none, none⟩ "SessionEnd" "a" none "t1"
          [("a", ⟨"waiting", "Stop", "", none, none, none, "t0"⟩),
           ("b", ⟨"working", "PreToolUse", "", none, none, none, "t0"⟩)]) =
      update_sessions ⟨"", none, none⟩ "SessionEnd" "a" none "t1"
        [("a", ⟨"waiting", "Stop", "", none, none, none, "t0"⟩),
         ("b", ⟨"working", "PreToolUse", "", none, none, none, "t0"⟩)]
    ∧ (storeGet
          [("a", ⟨"waiting", "Stop", "", none, none, none, "t0"⟩),
           ("b", ⟨"working", "PreToolUse", "", none, none, none, "t0"⟩)] "a" = none →
        update_sessions ⟨"", none, none⟩ "SessionEnd" "a" none "t1"
          [("a", ⟨"waiting", "Stop", "", none, none, none, "t0"⟩),
           ("b", ⟨"working", "PreToolUse", "", none, none, none, "t0"⟩)] =
        [("a", ⟨"waiting", "Stop", "", none, none, none, "t0"⟩),
         ("b", ⟨"working", "PreToolUse", "", none, none, none, "t0"⟩)]) :=
  terminal_commit_idempotent ⟨"", none, none⟩ "a" none "t1"
    [("a", ⟨"waiting", "Stop", "", none, none, none, "t0"⟩),
     ("b", ⟨"working", "PreToolUse", "", none, none, none, "t0"⟩)]
    (by decide)

/-! ## Aggregate status (claim C7) -/

theorem minByPriority_le (l : List String) : ∀ b : String,
    STATUS_PRIORITY (minByPriority b l) ≤ STATUS_PRIORITY b
    ∧ ∀ x ∈ l, STATUS_PRIORITY (minByPriority b l) ≤ STATUS_PRIORITY x := by
  induction l with
  | nil => intro b; exact ⟨le_refl _, by simp⟩
  | cons x t ih =>
      intro b
      simp only [minByPriority]
      obtain ⟨h1, h2⟩ := ih (if STATUS_PRIORITY x < STATUS_PRIORITY b then x else b)
      have hb : STATUS_PRIORITY (if STATUS_PRIORITY x < STATUS_PRIORITY b then x else b)
            ≤ STATUS_PRIORITY b
          ∧ STATUS_PRIORITY (if STATUS_PRIORITY x < STATUS_PRIORITY b then x else b)
            ≤ STATUS_PRIORITY x := by
        by_cases h : STATUS_PRIORITY x < STATUS_PRIORITY b <;> simp [h] <;> omega
      refine ⟨le_trans h1 hb.1, ?_⟩
      intro y hy
      rcases List.mem_cons.mp hy with rfl | hy
      · exact le_trans h1 hb.2
      · exact h2 y hy

theorem minByPriority_mem (l : List String) : ∀ b : String,
    minByPriority b l = b ∨ minByPriority b l ∈ l := by
  induction l with
  | nil => intro b; exact Or.inl rfl
  | cons x t ih =>
      intro b
      simp only [minByPriority]
      by_cases hc : STATUS_PRIORITY x < STATUS_PRIORITY b
      · rw [if_pos hc]
        rcases ih x with h | h
        · exact Or.inr (by simp [h])
        · exact Or.inr (List.mem_cons_of_mem _ h)
      · rw [if_neg hc]
        rcases ih b with h | h
        · exact Or.inl h
        · exact Or.inr (List.mem_cons_of_mem _ h)

/-- A fixed sample record carrying a given status, for concrete aggregate
computations. -/
def sampleRec (st : String) : SessionRecord :=
  ⟨st, "e", "", none, none, none, "ts"⟩

/-- C7: the aggregate status is the highest-priority status among all
records under the fixed total order working > waiting > active > idle
(`STATUS_PRIORITY`): its priority is a lower bound of every record's
status priority and it is attained by some record when the store is
non-empty; on the claim's three instances it gives `working`, `active`
and `idle` respectively (`claude-tray.py:27-37`). -/
theorem aggregate_status_highest_priority :
    (∀ s : Store, ∀ p ∈ s,
        STATUS_PRIORITY (aggregate_status s) ≤ STATUS_PRIORITY p.2.status)
    ∧ (∀ s : Store, s ≠ [] → ∃ p ∈ s, aggregate_status s = p.2.status)
    ∧ aggregate_status
        [("a", sampleRec "idle"), ("b", sampleRec "waiting"), ("c", sampleRec "working")]
        = "working"
    ∧ aggregate_status [("a", sampleRec "idle"), ("b", sampleRec "active")] = "active"
    ∧ aggregate_status [] = "idle" := by
  refine ⟨?_, ?_, by decide, by decide, rfl⟩
  · intro s p hp
    match s, hp with
    | hd :: t, hp =>
        simp only [aggregate_status, List.map_cons]
        rcases List.mem_cons.mp hp with rfl | hp
        · exact (minByPriority_le _ _).1
        · exact (minByPriority_le _ _).2 _ (List.mem_map_of_mem _ hp)
  · intro s hs
    match s, hs with
    | hd :: t, _ =>
        simp only [aggregate_status, List.map_cons]
        rcases minByPriority_mem (t.map (fun p => p.2.status)) hd.2.status with h | h
        · exact ⟨hd, List.mem_cons_self _ _, h⟩
        · obtain ⟨q, hq, hqs⟩ := List.mem_map.mp h
          exact ⟨q, List.mem_cons_of_mem _ hq, hqs.symm⟩

/-- Closed instance of `aggregate_status_highest_priority` on a
two-session store. -/
theorem aggregate_status_highest_priority_witness :
    STATUS_PRIORITY (aggregate_status [("a", sampleRec "idle"), ("b", sampleRec "working")])
      ≤ STATUS_PRIORITY ("a", sampleRec "idle").2.status
    ∧ ∃ p ∈ [("a", sampleRec "idle"), ("b", sampleRec "working")],
        aggregate_status [("a", sampleRec "idle"), ("b", sampleRec "working")] = p.2.status :=
  ⟨aggregate_status_highest_priority.1
      [("a", sampleRec "idle"), ("b", sampleRec "working")]
      ("a", sampleRec "idle") (by decide),
   aggregate_status_highest_priority.2.1
      [("a", sampleRec "idle"), ("b", sampleRec "working")] (by decide)⟩

/-! ## Corruption tolerance (claim C9) -/

/-- C9: both the producer's commit path and the consumer's read path treat
unparseable or absent backing content as the empty store (they are total
functions, so neither can fail), and a commit on a malformed or missing
file replaces it with the fresh state obtained by applying the transform
to the empty store (`tray-status-hook.py:92-96`, `claude-tray.py:127-131`). -/
theorem corrupt_or_missing_treated_as_empty :
    (∀ raw : String,
        consumerRead (.unparseable raw) = [] ∧ producerLoad (.unparseable raw) = [])
    ∧ consumerRead .absent = []
    ∧ producerLoad .absent = []
    ∧ (∀ (data : EventData) (event session_id : String) (tpid_found : Option Int)
        (now : String) (raw : String),
        commitEvent data event session_id tpid_found now (.unparseable raw)
          = .valid (update_sessions data event session_id tpid_found now [])
        ∧ commitEvent data event session_id tpid_found now .absent
          = .valid (update_sessions data event session_id tpid_found now [])) :=
  ⟨fun _ => ⟨rfl, rfl⟩, rfl, rfl, fun _ _ _ _ _ _ => ⟨rfl, rfl⟩⟩

/-! ## No stored record is idle (claim C10) -/

theorem nonterminal_status_not_idle (event : String) (he : event ≠ "SessionEnd") :
    (STATE_MAP event).getD "unknown" ≠ "idle"
    ∧ ((STATE_MAP event).getD "unknown" = "working"
        ∨ (STATE_MAP event).getD "unknown" = "waiting"
        ∨ (STATE_MAP event).getD "unknown" = "active"
        ∨ (STATE_MAP event).getD "unknown" = "unknown") := by
  unfold STATE_MAP
  split_ifs <;> simp_all

/-- C10: `STATE_MAP` maps the terminal kind `SessionEnd` to `"idle"`, yet
no reachable store state contains a record with status `"idle"`: the
terminal kind removes the key instead of writing, so every stored record's
status is one of working / waiting / active / unknown, while `"idle"` is
the consumer's aggregate for the empty store
(`tray-status-hook.py:15-21,98-124`, `claude-tray.py:30-37`). -/
theorem no_idle_record_reachable :
    STATE_MAP "SessionEnd" = some "idle"
    ∧ (∀ s : Store, ReachableStore s → ∀ p ∈ s,
        p.2.status ≠ "idle"
        ∧ (p.2.status = "working" ∨ p.2.status = "waiting"
            ∨ p.2.status = "active" ∨ p.2.status = "unknown"))
    ∧ aggregate_status [] = "idle" := by
  refine ⟨rfl, ?_, rfl⟩
  intro s hs
  induction hs with
  | empty => simp
  | step data event session_id tpid_found now s' _ ih =>
      intro p hp
      by_cases he : event = "SessionEnd"
      · subst he
        rw [update_sessions_terminal] at hp
        exact ih p (mem_storePop s' session_id p hp)
      · rw [update_sessions_nonterminal data event session_id tpid_found now s' he] at hp
        rcases mem_storeSet s' session_id _ p hp with h | h
        · exact ih p h
        · rw [h]
          exact nonterminal_status_not_idle event he

/-- The store after one `SessionStart` commit on the empty store. -/
def reachedStore : Store :=
  update_sessions ⟨"", none, none⟩ "SessionStart" "abc" none "t0" []

/-- Closed instance of `no_idle_record_reachable` at the store reached by
one `SessionStart` commit. -/
theorem no_idle_record_reachable_witness :
    ("abc", (⟨"active", "SessionStart", "", none, none, none, "t0"⟩ : SessionRecord)).2.status ≠ "idle"
    ∧ (("abc", (⟨"active", "SessionStart", "", none, none, none, "t0"⟩ : SessionRecord)).2.status = "working"
        ∨ ("abc", (⟨"active", "SessionStart", "", none, none, none, "t0"⟩ : SessionRecord)).2.status = "waiting"
        ∨ ("abc", (⟨"active", "SessionStart", "", none, none, none, "t0"⟩ : SessionRecord)).2.status = "active"
        ∨ ("abc", (⟨"active", "SessionStart", "", none, none, none, "t0"⟩ : SessionRecord)).2.status = "unknown") :=
  no_idle_record_reachable.2.1 reachedStore
    (ReachableStore.step ⟨"", none, none⟩ "SessionStart" "abc" none "t0" []
      ReachableStore.empty)
    ("abc", ⟨"active", "SessionStart", "", none, none, none, "t0"⟩) (by decide)

/-! ## Staleness (claim C1)

`ClaudeTray.update_status` (`claude-tray.py:126-147`) parses the store and
passes it directly to `aggregate_status` and `build_labels`; neither
function, nor anything else in either source file, reads the `timestamp`
field or takes a clock or cutoff input. -/

/-- A store whose only record is arbitrarily old (its producer wrote it at
epoch time 0). -/
def staleStore : Store :=
  [("abc", ⟨"working", "PreToolUse", "", none, none, none, "1970-01-01T00:00:00"⟩)]

/-- C1 counterexample: with `now = 10`, `cutoffDuration = 10` and the
record's `updatedAt = 0`, the record is aged exactly `cutoffDuration` and
so is classified not-alive by the spec's policy, and the spec-modelled
filtered view would be empty/idle — yet the consumer pipeline of
`ClaudeTray.update_status`, which takes no clock input at all, lets the
record contribute: the aggregate is `working` and the record gets a
display row, including in the Gtk calls of a full tick. -/
theorem consumer_applies_no_staleness_filter :
    specIsAlive 10 0 10 = false
    ∧ specFilterAlive 10 10 (fun _ => 0) staleStore = []
    ∧ aggregate_status (specFilterAlive 10 10 (fun _ => 0) staleStore) = "idle"
    ∧ build_labels (specFilterAlive 10 10 (fun _ => 0) staleStore) = ["No active sessions"]
    ∧ aggregate_status staleStore = "working"
    ∧ build_labels staleStore = ["1 session(s)", "[abc] working"]
    ∧ (update_status_tick ⟨none, ["No active sessions"], ["No active sessions"], false, none⟩
        staleStore).2 =
      [.setIcon "media-record" "working", .setTitle "Claude Code: working",
       .setLabel 0 "1 session(s)", .insertItem 1 "[abc] working"] := by
  decide

/-- C1 amended: the consumer applies no staleness policy — every record
read from the store contributes to the aggregate status and the display
rows regardless of its `updatedAt` age; formally, the whole tick output is
invariant under arbitrary rewriting of every record's `timestamp` field. -/
theorem consumer_output_ignores_timestamps (f : String → String) (s : Store)
    (st : TrayState) :
    aggregate_status (mapTimestamps f s) = aggregate_status s
    ∧ build_labels (mapTimestamps f s) = build_labels s
    ∧ update_status_tick st (mapTimestamps f s) = update_status_tick st s := by
  have hagg : aggregate_status (mapTimestamps f s) = aggregate_status s := by
    unfold aggregate_status mapTimestamps
    induction s with
    | nil => rfl
    | cons hd t _ =>
        simp only [List.map_cons, List.map_map]
        rfl
  have hlab : build_labels (mapTimestamps f s) = build_labels s := by
    unfold build_labels
    by_cases hs : s = []
    · subst hs; rfl
    · have hs' : mapTimestamps f s ≠ [] := by
        intro h
        exact hs (List.map_eq_nil_iff.mp h)
      rw [if_neg hs, if_neg hs']
      have hlen : (mapTimestamps f s).length = s.length := List.length_map _ _
      rw [hlen]
      have hrows : (mapTimestamps f s).map (fun p => rowLabel p.1 p.2)
          = s.map (fun p => rowLabel p.1 p.2) := by
        unfold mapTimestamps
        rw [List.map_map]
        rfl
      rw [hrows]
  refine ⟨hagg, hlab, ?_⟩
  unfold update_status_tick
  rw [hagg, hlab]

/-! ## Serializability of locked commits (claim C2) -/

/-- Lock discipline invariant: a producer inside its critical section is
the lock holder, and the value it read under the lock is the current store
(nobody can have written since, as writing requires the lock). -/
def LockInv {σ : Type} {n : Nat} (c : Conf σ n) : Prop :=
  ∀ (i : Fin n) (v : σ), c.ps i = .inCS v → c.lock = some i ∧ v = c.store

theorem lockInv_preserved {σ : Type} {n : Nat} {fs : Fin n → σ → σ}
    {c c' : Conf σ n} (h : Step fs c c') (hI : LockInv c) : LockInv c' := by
  cases h with
  | acquire i h1 h2 =>
      intro j v hj
      have hj' : Function.update c.ps i (PState.inCS c.store) j = PState.inCS v := hj
      by_cases hij : j = i
      · subst hij
        rw [Function.update_same] at hj'
        cases hj'
        exact ⟨rfl, rfl⟩
      · rw [Function.update_noteq hij] at hj'
        have hlk := (hI j v hj').1
        rw [h2] at hlk
        cases hlk
  | commit i v h1 h2 =>
      intro j w hj
      have hj' : Function.update c.ps i PState.done j = PState.inCS w := hj
      by_cases hij : j = i
      · subst hij
        rw [Function.update_same] at hj'
        cases hj'
      · rw [Function.update_noteq hij] at hj'
        have hlk := (hI j w hj').1
        rw [h2] at hlk
        exact absurd (Option.some.inj hlk).symm hij

theorem filter_perm_of_flip {α : Type} [DecidableEq α] (L : List α)
    (hN : L.Nodup) (i : α) (hi : i ∈ L) (p p' : α → Bool)
    (hpi : p i = true) (hp'i : p' i = false)
    (hagree : ∀ j, j ≠ i → p' j = p j) :
    (L.filter p).Perm (i :: L.filter p') := by
  induction L with
  | nil => cases hi
  | cons a t ih =>
      rw [List.nodup_cons] at hN
      rcases List.mem_cons.mp hi with rfl | hit
      · have hft : t.filter p = t.filter p' := by
          apply List.filter_congr
          intro j hj
          exact (hagree j (fun he => hN.1 (he ▸ hj))).symm
        have e1 : (i :: t).filter p = i :: t.filter p := by
          simp [List.filter_cons, hpi]
        have e2 : (i :: t).filter p' = t.filter p' := by
          simp [List.filter_cons, hp'i]
        rw [e1, e2, hft]
      · have hai : a ≠ i := fun he => hN.1 (he ▸ hit)
        have hpa : p' a = p a := hagree a hai
        cases hv : p a with
        | true =>
            have e1 : (a :: t).filter p = a :: t.filter p := by
              simp [List.filter_cons, hv]
            have e2 : (a :: t).filter p' = a :: t.filter p' := by
              simp [List.filter_cons, hpa, hv]
            rw [e1, e2]
            exact (List.Perm.cons a (ih hN.2 hit)).trans (List.Perm.swap i a _)
        | false =>
            have e1 : (a :: t).filter p = t.filter p := by
              simp [List.filter_cons, hv]
            have e2 : (a :: t).filter p' = t.filter p' := by
              simp [List.filter_cons, hpa, hv]
            rw [e1, e2]
            exact ih hN.2 hit

theorem pending_initConf (σ : Type) (n : Nat) (s0 : σ) :
    pending (initConf σ n s0) = List.finRange n := by
  simp [pending, initConf, PState.isDone]

theorem steps_serialize {σ : Type} {n : Nat} (fs : Fin n → σ → σ)
    (final : Conf σ n) (hdone : ∀ i, (final.ps i).isDone = true) :
    ∀ c : Conf σ n, Relation.ReflTransGen (Step fs) c final → LockInv c →
      ∃ l : List (Fin n), l.Perm (pending c)
        ∧ final.store = l.foldl (fun s i => fs i s) c.store := by
  intro c hsteps
  induction hsteps using Relation.ReflTransGen.head_induction_on with
  | refl =>
      intro _
      refine ⟨[], ?_, rfl⟩
      have : pending final = [] := by
        unfold pending
        apply List.filter_eq_nil_iff.mpr
        intro j _
        simp [hdone j]
      rw [this]
  | head hstep hrest ih =>
      intro hInv
      rename_i a b
      have hInv' := lockInv_preserved hstep hInv
      obtain ⟨l, hperm, hstore⟩ := ih hInv'
      cases hstep with
      | acquire i h1 h2 =>
          refine ⟨l, ?_, hstore⟩
          have hpend : pending (⟨a.store, some i, Function.update a.ps i (.inCS a.store)⟩ : Conf σ n)
              = pending a := by
            unfold pending
            apply List.filter_congr
            intro j _
            show (!(Function.update a.ps i (PState.inCS a.store) j).isDone) = (!(a.ps j).isDone)
            by_cases hij : j = i
            · subst hij
              rw [Function.update_same, h1]
              rfl
            · rw [Function.update_noteq hij]
          rw [hpend] at hperm
          exact hperm
      | commit i v h1 h2 =>
          have hv : v = a.store := (hInv i v h1).2
          refine ⟨i :: l, ?_, ?_⟩
          · have hflip : (pending a).Perm (i :: pending (⟨fs i v, none, Function.update a.ps i .done⟩ : Conf σ n)) := by
              unfold pending
              apply filter_perm_of_flip (List.finRange n) (List.nodup_finRange n) i
                (List.mem_finRange i)
              · show (!(a.ps i).isDone) = true
                rw [h1]
                rfl
              · show (!(Function.update a.ps i PState.done i).isDone) = false
                rw [Function.update_same]
                rfl
              · intro j hij
                show (!(Function.update a.ps i PState.done j).isDone) = (!(a.ps j).isDone)
                rw [Function.update_noteq hij]
            exact (List.Perm.cons i hperm).trans hflip.symm
          · show final.store = List.foldl (fun s j => fs j s) (fs i a.store) l
            rw [← hv]
            exact hstore

/-- C2 amended: producer commits are serialized by the exclusive `flock`
on the backing file — any complete interleaving of `n` concurrent commits
(each reading under the lock and writing before release) leaves the store
equal to some sequential composition of all `n` transforms, with no lost
updates — but the consumer's poll path performs no lock acquisition at
all, while the producers' write path does
(`tray-status-hook.py:89-128`, `claude-tray.py:127-131`). -/
theorem commits_serialize_consumer_unlocked (n : Nat)
    (fs : Fin n → Store → Store) (s0 : Store) (final : Conf Store n)
    (hrun : Relation.ReflTransGen (Step fs) (initConf Store n s0) final)
    (hdone : ∀ i, (final.ps i).isDone = true) :
    (∃ l : List (Fin n), l.Perm (List.finRange n)
      ∧ final.store = l.foldl (fun s i => fs i s) s0)
    ∧ FileAction.flockEx ∈ producerCommitActions
    ∧ FileAction.flockEx ∉ consumerReadActions := by
  refine ⟨?_, by decide, by decide⟩
  have hInv0 : LockInv (initConf Store n s0) := by
    intro i v h
    exact absurd h (by simp [initConf])
  obtain ⟨l, hperm, hstore⟩ := steps_serialize fs final hdone _ hrun hInv0
  rw [pending_initConf] at hperm
  exact ⟨l, hperm, hstore⟩

/-- The transform of the single witness producer. -/
def witnessTransform : Fin 1 → Store → Store :=
  fun _ s => update_sessions ⟨"hi", none, none⟩ "SessionStart" "abc" none "t0" s

/-- Configuration after the witness producer acquired the lock and read
the empty store. -/
def witnessMid : Conf Store 1 :=
  ⟨[], some 0, Function.update (fun _ => PState.ready) 0 (PState.inCS [])⟩

/-- Final configuration of the witness run. -/
def witnessFinal : Conf Store 1 :=
  ⟨witnessTransform 0 [], none,
    Function.update (Function.update (fun _ => PState.ready) 0 (PState.inCS [])) 0 PState.done⟩

/-- Closed instance of `commits_serialize_consumer_unlocked`: one producer
committing a `SessionStart` on the empty store. -/
theorem commits_serialize_consumer_unlocked_witness :
    (∃ l : List (Fin 1), l.Perm (List.finRange 1)
      ∧ witnessFinal.store = l.foldl (fun s i => witnessTransform i s) [])
    ∧ FileAction.flockEx ∈ producerCommitActions
    ∧ FileAction.flockEx ∉ consumerReadActions :=
  commits_serialize_consumer_unlocked 1 witnessTransform [] witnessFinal
    (Relation.ReflTransGen.head
      (Step.acquire (initConf Store 1 []) 0 rfl rfl)
      (Relation.ReflTransGen.single
        (Step.commit witnessMid 0 [] (by simp [witnessMid]) rfl)))
    (by
      intro i
      fin_cases i
      simp [witnessFinal, PState.isDone])

/-- C2 counterexample: the producers' write path acquires the exclusive
lock (`fcntl.flock(fd, fcntl.LOCK_EX)` at `tray-status-hook.py:91`), but
the consumer's read path (`claude-tray.py:128-129`) performs no lock
acquisition at all, refuting the claim that the consumer's read path
acquires the same lock as the producers' write path. -/
theorem consumer_read_path_takes_no_lock :
    FileAction.flockEx ∈ producerCommitActions
    ∧ FileAction.flockEx ∉ consumerReadActions := by
  decide

/-! ## Menu synchronisation lemmas (claim C8) -/

theorem syncForward_setLabel_mem (labels : List String) :
    ∀ (items : List String) (i j : Nat), j < labels.length → i + j < items.length →
      RenderCall.setLabel (i + j) (labels.getD j "") ∈ (syncForward items labels i).2 := by
  induction labels with
  | nil =>
      intro items i j hj _
      simp at hj
  | cons t rest ih =>
      intro items i j hj hlen
      cases j with
      | zero =>
          have hi : i < items.length := by omega
          simp [syncForward, if_pos hi]
      | succ j' =>
          have hi : i < items.length := by omega
          simp only [syncForward, if_pos hi]
          have hj' : j' < rest.length := by
            simp only [List.length_cons] at hj
            omega
          have hlen' : (i + 1) + j' < (items.set i t).length := by
            rw [List.length_set]
            omega
          have hmem := ih (items.set i t) (i + 1) j' hj' hlen'
          have harith : i + (j' + 1) = (i + 1) + j' := by omega
          rw [harith]
          exact List.mem_cons_of_mem _ hmem

theorem syncForward_length (labels : List String) :
    ∀ (items : List String) (i : Nat), i ≤ items.length →
      (syncForward items labels i).1.length = max items.length (i + labels.length) := by
  induction labels with
  | nil =>
      intro items i hi
      simp only [syncForward, List.length_nil, Nat.add_zero]
      omega
  | cons t rest ih =>
      intro items i hi
      by_cases h : i < items.length
      · simp only [syncForward, if_pos h]
        have hrec := ih (items.set i t) (i + 1) (by rw [List.length_set]; omega)
        rw [List.length_set] at hrec
        rw [hrec, List.length_cons]
        omega
      · simp only [syncForward, if_neg h]
        have hieq : i = items.length := by omega
        have hrec := ih (items ++ [t]) (i + 1)
          (by rw [List.length_append, List.length_singleton]; omega)
        rw [List.length_append, List.length_singleton] at hrec
        rw [hrec, List.length_cons]
        omega

theorem removeExtraAux_length (k : Nat) :
    ∀ items : List String, (removeExtraAux k items).1.length = items.length - k := by
  induction k with
  | zero =>
      intro items
      simp [removeExtraAux]
  | succ n ih =>
      intro items
      simp only [removeExtraAux]
      rw [ih items.dropLast, List.length_dropLast]
      omega

theorem sync_items_length (items labels : List String) :
    (sync_items items labels).1.length = labels.length := by
  unfold sync_items removeExtra
  simp only
  rw [removeExtraAux_length, syncForward_length labels items 0 (by omega)]
  omega

theorem sync_items_setLabel_mem (items labels : List String) (i : Nat)
    (hi : i < items.length) (hil : i < labels.length) :
    RenderCall.setLabel i (labels.getD i "") ∈ (sync_items items labels).2 := by
  unfold sync_items
  simp only
  apply List.mem_append_left
  have := syncForward_setLabel_mem labels items 0 i hil (by omega)
  simpa using this

theorem tick_no_row_calls (st : TrayState) (sessions : Store)
    (hlab : build_labels sessions = st.lastLabels) :
    ∀ call ∈ (update_status_tick st sessions).2, call.isRowCall = false := by
  intro call hc
  by_cases hAgg : st.lastAgg = some (aggregate_status sessions)
  · simp [update_status_tick, hAgg, hlab] at hc
  · simp [update_status_tick, hAgg, hlab] at hc
    rcases hc with rfl | rfl <;> rfl

/-- C8 counterexample: `_sync_items` does not keep a fixed set of
pre-allocated slots toggling only visibility and text — it inserts a fresh
`Gtk.MenuItem` when the label list grows and removes (destroys) the
trailing item when it shrinks — and when consecutive label lists differ it
emits `set_label` on every retained row index, including row 0 here whose
text `"x"` is identical to what that slot already displayed, refuting
"a render call is emitted only for rows whose text differs"
(`claude-tray.py:108-124`). -/
theorem sync_rerenders_unchanged_rows :
    (sync_items ["x", "b"] ["x", "c"]).2 =
      [.setLabel 0 "x", .setLabel 1 "c"]
    ∧ (sync_items ["a"] ["a", "b"]).2 =
      [.setLabel 0 "a", .insertItem 1 "b"]
    ∧ (sync_items ["a"] ["a", "b"]).1 = ["a", "b"]
    ∧ (sync_items ["a", "b"] ["a"]).2 =
      [.setLabel 0 "a", .removeItem "b"]
    ∧ (sync_items ["a", "b"] ["a"]).1 = ["a"] := by
  decide

/-- C8 amended: on ticks whose label list equals the previous tick's, no
row-touching Gtk call is emitted (only possibly the aggregate icon/title);
when label lists differ, `_sync_items` emits a `set_label` call for every
row index retained from the previous item list — whether or not its text
changed — and resizes the item list to exactly the new label count by
inserting fresh items or removing trailing ones
(`claude-tray.py:108-124,140-147`). -/
theorem menu_rows_sync_behaviour (st : TrayState) (sessions : Store)
    (items labels : List String) (i : Nat)
    (hlab : build_labels sessions = st.lastLabels)
    (hi : i < items.length) (hil : i < labels.length) :
    (∀ call ∈ (update_status_tick st sessions).2, call.isRowCall = false)
    ∧ RenderCall.setLabel i (labels.getD i "") ∈ (sync_items items labels).2
    ∧ (sync_items items labels).1.length = labels.length :=
  ⟨tick_no_row_calls st sessions hlab,
   sync_items_setLabel_mem items labels i hi hil,
   sync_items_length items labels⟩

/-- Closed instance of `menu_rows_sync_behaviour`: an idle tick repeating
the previous labels emits no row call, and a changed label list re-renders
retained row 0 and resizes to the new count. -/
theorem menu_rows_sync_behaviour_witness :
    (∀ call ∈ (update_status_tick
        ⟨some "idle", ["No active sessions"], ["No active sessions"], false, none⟩ []).2,
      call.isRowCall = false)
    ∧ RenderCall.setLabel 0 (["x", "c"].getD 0 "") ∈ (sync_items ["x", "b"] ["x", "c"]).2
    ∧ (sync_items ["x", "b"] ["x", "c"]).1.length = ["x", "c"].length :=
  menu_rows_sync_behaviour
    ⟨some "idle", ["No active sessions"], ["No active sessions"], false, none⟩ []
    ["x", "b"] ["x", "c"] 0 (by decide) (by decide) (by decide)
